import Mathlib

/-!
Verification of the pyclustering oscillatory-network core (`network.cpp`,
`syncnet`/`hsyncnet`) against its natural-language specification.

The C++ sources are shallowly embedded: `unsigned int` arithmetic is `ℕ`
with explicit reduction modulo `2^32` where wraparound can occur, `int`
values obtained by converting an `unsigned int` are `ℤ` via `toInt32`,
and `double` arithmetic is modelled exactly over `ℚ` (every numeric
operation performed by the relevant code paths — add, sub, mul, div,
compare — is exact on the values involved or its rounding is irrelevant
to the stated claims; `std::sin` is an abstract function parameter).
-/

/-- Number of values of the C `unsigned int` type (a 32-bit word). -/
def U32 : ℕ := 4294967296

/-- Unsigned 32-bit subtraction: the value of `a - b` computed in
`unsigned int` arithmetic, for operands already reduced mod `2^32`. -/
def usub32 (a b : ℕ) : ℕ := (a + (U32 - b % U32)) % U32

/-- Conversion of an `unsigned int` bit-pattern to `int`
(twos-complement, as all targeted implementations define it). -/
def toInt32 (x : ℕ) : ℤ := if x % U32 < 2 ^ 31 then (x % U32 : ℤ) else (x % U32 : ℤ) - (U32 : ℤ)

/-- Modelled from the spec: `setConnection(i, j)` "marks a directed edge
`i → j`" (its body lives in `network.h`, which is not among the provided
sources).  The connection state is the list of directed edges marked so far,
which keeps the model independent of the dense/bitmap representation —
the spec requires the getter/setter to behave identically in both. -/
def set_connection (conns : List (ℕ × ℕ)) (i j : ℕ) : List (ℕ × ℕ) := (i, j) :: conns

/-- Modelled from the spec: `getConnection(i, j)` "returns whether edge exists;
must be representation-agnostic" (`network.h` is not among the provided
sources). -/
def get_connection (conns : List (ℕ × ℕ)) (i j : ℕ) : Bool := decide ((i, j) ∈ conns)

/-- `network::get_neighbors`: scans all candidate neighbours `0 ≤ k < num_osc`
in ascending order and keeps those with a connection from `index`. -/
def get_neighbors (conns : List (ℕ × ℕ)) (num_osc index : ℕ) : List ℕ :=
  (List.range num_osc).filter (fun k => get_connection conns index k)

/-- The connection topologies of `conn_type` (network.h enum, as used by
`network::create_structure`). -/
inductive conn_type where
  | NONE
  | ALL_TO_ALL
  | GRID_FOUR
  | GRID_EIGHT
  | LIST_BIDIR
deriving DecidableEq, Repr

/-- Errors surfaced by construction (`std::runtime_error` sites in network.cpp). -/
inductive NetworkError where
  | InvalidGridSize
  | InvalidTopology
deriving DecidableEq, Repr

/-- `network::create_none_connections`: no edges. -/
def create_none_connections : List (ℕ × ℕ) := []

/-- `network::create_all_to_all_connections`: for every `row` and every
`col` in `(row, num_osc)`, set both directions.  The list records the
`set_connection` calls in program order. -/
def create_all_to_all_connections (num_osc : ℕ) : List (ℕ × ℕ) :=
  (List.range num_osc).flatMap (fun row =>
    (List.range' (row + 1) (num_osc - (row + 1))).flatMap (fun col =>
      [(row, col), (col, row)]))

/-- `network::create_list_bidir_connections`: the source loop runs
`for (index = 1; index < num_osc; index++)` — it starts at 1 (hence
`List.range' 1 (num_osc - 1)`), with a then-redundant `index > 0` guard. -/
def create_list_bidir_connections (num_osc : ℕ) : List (ℕ × ℕ) :=
  (List.range' 1 (num_osc - 1)).flatMap (fun index =>
    (if 0 < index then [(index, index - 1)] else []) ++
    (if index < num_osc - 1 then [(index, index + 1)] else []))

/-- Body of the `create_grid_four_connections` loop for one `index`.
`upper_index`, `lower_index`, `left_index`, `right_index` are declared `int`
in the source but initialised from `unsigned int` expressions, so the
expression first wraps mod `2^32` and is then converted to `int`
(`toInt32`).  `upper_index >= 0` and `left_index >= 0` are signed tests;
`lower_index < num_osc` and `right_index < num_osc` convert the `int`
back to `unsigned`, as do the divisions by `side_size` and the
`set_connection` calls.  `std::ceil` applied to the result of an integer
division is the identity, so `node_row_index = index / side_size`. -/
def grid_four_connections_at (num_osc side_size index : ℕ) : List (ℕ × ℕ) :=
  let upper_index := usub32 index side_size
  let lower_index := (index + side_size) % U32
  let left_index := usub32 index 1
  let right_index := (index + 1) % U32
  let node_row_index := index / side_size
  (if 0 ≤ toInt32 upper_index then [(index, upper_index)] else []) ++
  (if lower_index < num_osc then [(index, lower_index)] else []) ++
  (if 0 ≤ toInt32 left_index ∧ left_index / side_size = node_row_index then
    [(index, left_index)] else []) ++
  (if right_index < num_osc ∧ right_index / side_size = node_row_index then
    [(index, right_index)] else [])

/-- `network::create_grid_four_connections`.  The source computes
`conv_side_size = std::sqrt((double) num_osc)` and fails iff
`conv_side_size - floor(conv_side_size) > 0`.  For every `unsigned int`
input the correctly-rounded double square root is an integer exactly when
`num_osc` is a perfect square (for non-squares `n < 2^32` the true root is
at distance `≥ 2^-17` from the nearest integer, far above the rounding
error), so the check is exactly `Nat.sqrt num_osc ^ 2 = num_osc` and
`side_size = Nat.sqrt num_osc`. -/
def create_grid_four_connections (num_osc : ℕ) :
    Except NetworkError (List (ℕ × ℕ)) :=
  if Nat.sqrt num_osc * Nat.sqrt num_osc = num_osc then
    .ok ((List.range num_osc).flatMap
      (grid_four_connections_at num_osc (Nat.sqrt num_osc)))
  else
    .error NetworkError.InvalidGridSize

/-- Body of the extra-diagonal loop of `create_grid_eight_connections` for one
`index`.  Here every local is `unsigned int`, so all arithmetic wraps mod
`2^32`, the `>= 0` guards on `upper_left_index`/`upper_right_index` are
tautologically true for unsigned operands (kept for faithfulness), and all
comparisons and divisions are unsigned. -/
def grid_eight_connections_at (num_osc side_size index : ℕ) : List (ℕ × ℕ) :=
  let upper_left_index := usub32 (usub32 index side_size) 1
  let upper_right_index := (usub32 index side_size + 1) % U32
  let lower_left_index := usub32 ((index + side_size) % U32) 1
  let lower_right_index := (index + side_size + 1) % U32
  let node_row_index := index / side_size
  let upper_row_index := usub32 node_row_index 1
  let lower_row_index := (node_row_index + 1) % U32
  (if 0 ≤ upper_left_index ∧ upper_left_index / side_size = upper_row_index then
    [(index, upper_left_index)] else []) ++
  (if 0 ≤ upper_right_index ∧ upper_right_index / side_size = upper_row_index then
    [(index, upper_right_index)] else []) ++
  (if lower_left_index < num_osc ∧ lower_left_index / side_size = lower_row_index then
    [(index, lower_left_index)] else []) ++
  (if lower_right_index < num_osc ∧ lower_right_index / side_size = lower_row_index then
    [(index, lower_right_index)] else [])

/-- `network::create_grid_eight_connections`: first builds the GRID_FOUR
edges (propagating its perfect-square failure), then adds the diagonal
edges. -/
def create_grid_eight_connections (num_osc : ℕ) :
    Except NetworkError (List (ℕ × ℕ)) :=
  match create_grid_four_connections num_osc with
  | .error e => .error e
  | .ok four =>
    .ok (four ++ (List.range num_osc).flatMap
      (grid_eight_connections_at num_osc (Nat.sqrt num_osc)))

/-- `network::create_structure`: dispatch on the topology. -/
def create_structure (num_osc : ℕ) (connection_structure : conn_type) :
    Except NetworkError (List (ℕ × ℕ)) :=
  match connection_structure with
  | .NONE => .ok create_none_connections
  | .ALL_TO_ALL => .ok (create_all_to_all_connections num_osc)
  | .GRID_FOUR => create_grid_four_connections num_osc
  | .GRID_EIGHT => create_grid_eight_connections num_osc
  | .LIST_BIDIR => .ok (create_list_bidir_connections num_osc)

/-- The two adjacency representations of network.h. -/
inductive conn_represent where
  | MATRIX_CONN_REPRESENTATION
  | BITMAP_CONN_REPRESENTATION
deriving DecidableEq, Repr

/-- The representation choice and per-row element count computed by the
`network::network` constructor.  Modelled from the spec: the "fixed
dense-matrix threshold" `MAXIMUM_OSCILLATORS_MATRIX_REPRESENTATION` is
declared in `network.h`, which is not among the provided sources, so it is
taken as the parameter `threshold`.  In the bitmap branch the source
computes `std::ceil( number_oscillators / sizeof(unsigned int) )`: the
division is the *integer* division `number_oscillators / 4`
(`sizeof(unsigned int)` is 4 — bytes, not bits — on the targeted
platforms), and `std::ceil` then acts on an already-integral value, so it
is the identity. -/
def network_ctor_repr (number_oscillators threshold : ℕ) : conn_represent × ℕ :=
  if number_oscillators > threshold then
    (conn_represent.BITMAP_CONN_REPRESENTATION, number_oscillators / 4)
  else
    (conn_represent.MATRIX_CONN_REPRESENTATION, number_oscillators)

/-- The adjacency rows allocated by the `network::network` constructor:
`number_oscillators` rows, each a vector of `number_elements` zeroes. -/
def network_ctor_rows (number_oscillators threshold : ℕ) : List (List ℕ) :=
  List.replicate number_oscillators
    (List.replicate (network_ctor_repr number_oscillators threshold).2 0)

/-- The exact value of `std::numeric_limits<double>::max()`
(`(2 - 2^-52) * 2^1023`), used to initialise `minimum_distance` in
`syncnet::create_connections`. -/
def DBL_MAX : ℚ := ((2 ^ 1024 - 2 ^ 971 : ℕ) : ℚ)

/-- Modelled from the spec: `euclidean_distance_sqrt` (declared in
`support.h`, which is not among the provided sources) "computes squared
Euclidean distance" between two points. -/
def euclidean_distance_sqrt (a b : List ℚ) : ℚ :=
  (List.zipWith (fun x y => (x - y) * (x - y)) a b).sum

/-- Read entry `(i, j)` of a matrix stored as rows. -/
def mat_get (m : List (List ℚ)) (i j : ℕ) : ℚ := (m.getD i []).getD j 0

/-- Write entry `(i, j)` of a matrix stored as rows. -/
def mat_set (m : List (List ℚ)) (i j : ℕ) (v : ℚ) : List (List ℚ) :=
  m.set i ((m.getD i []).set j v)

/-- The unordered pairs `(i, j)` with `i < j < n`, in the order the nested
loops `for (i = 0; i < n; i++) for (j = i + 1; j < n; j++)` visit them. -/
def pair_list (n : ℕ) : List (ℕ × ℕ) :=
  (List.range n).flatMap (fun i =>
    (List.range' (i + 1) (n - (i + 1))).map (fun j => (i, j)))

/-- State of the `syncnet` object after construction: connections plus the
optional weight matrix (`distance_conn_weights` is `NULL` — `none` — when
weighting is disabled). -/
structure syncnet_state where
  num_osc : ℕ
  oscillator_locations : List (List ℚ)
  conns : List (ℕ × ℕ)
  distance_conn_weights : Option (List (List ℚ))
deriving Repr

/-- One iteration of the main pair loop of `syncnet::create_connections`,
acting on the loop-carried state `(conns, weight matrix, maximum_distance)`.
Note the two consecutive updates of `maximum_distance` exactly as in the
source: `if (distance > maximum_distance) maximum_distance = distance;`
then `if (distance < maximum_distance) maximum_distance = distance;` —
the second test reads and writes `maximum_distance` (not
`minimum_distance`), and no statement of the loop ever assigns
`minimum_distance`. -/
def conn_loop_step (points : List (List ℚ)) (sqrt_connectivity_radius : ℚ)
    (enable_conn_weight : Bool)
    (st : List (ℕ × ℕ) × List (List ℚ) × ℚ) (p : ℕ × ℕ) :
    List (ℕ × ℕ) × List (List ℚ) × ℚ :=
  let distance := euclidean_distance_sqrt (points.getD p.1 []) (points.getD p.2 [])
  let conns :=
    if distance ≤ sqrt_connectivity_radius then
      set_connection (set_connection st.1 p.2 p.1) p.1 p.2
    else st.1
  if enable_conn_weight then
    let w := mat_set (mat_set st.2.1 p.1 p.2 distance) p.2 p.1 distance
    let m1 := if distance > st.2.2 then distance else st.2.2
    let m2 := if distance < m1 then distance else m1
    (conns, w, m2)
  else
    (conns, st.2.1, st.2.2)

/-- `syncnet::create_connections` (together with the state the `syncnet`
constructor sets up: the base network is built with `conn_type::NONE`, so
the connection state starts empty).  `maximum_distance` starts at `0`,
`minimum_distance` at `DBL_MAX` and — as in the source — is never updated
by the loop.  The normalisation pass uses `multiplier = 1`,
`subtractor = 0` when `maximum_distance == minimum_distance` and
`multiplier = maximum_distance - minimum_distance`,
`subtractor = minimum_distance` otherwise. -/
def syncnet_create_connections (points : List (List ℚ))
    (connectivity_radius : ℚ) (enable_conn_weight : Bool) : syncnet_state :=
  let n := points.length
  let sqrt_connectivity_radius := connectivity_radius * connectivity_radius
  let w0 : List (List ℚ) := List.replicate n (List.replicate n 0)
  let res := (pair_list n).foldl
    (conn_loop_step points sqrt_connectivity_radius enable_conn_weight)
    (create_none_connections, w0, (0 : ℚ))
  let maximum_distance := res.2.2
  let minimum_distance := DBL_MAX
  if enable_conn_weight then
    let multiplier := if maximum_distance ≠ minimum_distance then
      maximum_distance - minimum_distance else 1
    let subtractor := if maximum_distance ≠ minimum_distance then
      minimum_distance else 0
    let w := (pair_list n).foldl (fun m p =>
      let value_weight := (mat_get m p.1 p.2 - subtractor) / multiplier
      mat_set (mat_set m p.1 p.2 value_weight) p.2 p.1 value_weight) res.2.1
    { num_osc := n, oscillator_locations := points, conns := res.1,
      distance_conn_weights := some w }
  else
    { num_osc := n, oscillator_locations := points, conns := res.1,
      distance_conn_weights := none }

/-- State visible to `syncnet::phase_kuramoto`.  `oscillators` (the phase of
each oscillator) and `weight` live in the `sync_network` base class, whose
source is not among the provided files; modelled from the spec: per-oscillator
"current phase" and the network coupling "weight". -/
structure sync_state where
  num_osc : ℕ
  conns : List (ℕ × ℕ)
  distance_conn_weights : Option (List (List ℚ))
  oscillators : List ℚ
  weight : ℚ

/-- `syncnet::phase_kuramoto`.  `sinq` stands for `std::sin`; `t` is unused
exactly as in the source.  The two loops (weighted / unweighted) accumulate
`(phase, num_neighbors)` over all `k < num_osc` with a connection from
`index`; afterwards a zero neighbour count is replaced by 1 and the result
is `phase * weight / num_neighbors`. -/
def phase_kuramoto (net : sync_state) (sinq : ℚ → ℚ) (t teta : ℚ)
    (index : ℕ) : ℚ :=
  let acc :=
    match net.distance_conn_weights with
    | some w =>
      (List.range net.num_osc).foldl
        (fun (acc : ℚ × ℕ) k =>
          if get_connection net.conns index k then
            (acc.1 + mat_get w index k * sinq (net.oscillators.getD k 0 - teta),
             acc.2 + 1)
          else acc) ((0 : ℚ), (0 : ℕ))
    | none =>
      (List.range net.num_osc).foldl
        (fun (acc : ℚ × ℕ) k =>
          if get_connection net.conns index k then
            (acc.1 + sinq (net.oscillators.getD k 0 - teta), acc.2 + 1)
          else acc) ((0 : ℚ), (0 : ℕ))
  let num_neighbors : ℕ := if acc.2 = 0 then 1 else acc.2
  acc.1 * net.weight / (num_neighbors : ℚ)

/-- `syncnet::phase_kuramoto` with the object state threaded explicitly
through every step of the computation, so that the absence of mutation is a
property of the embedding rather than an assumption: each loop iteration
receives the current network state, performs its reads on it, and passes on
the state it received; the epilogue does the same. -/
def phase_kuramoto_run (net : sync_state) (sinq : ℚ → ℚ) (t teta : ℚ)
    (index : ℕ) : ℚ × sync_state :=
  let acc :=
    match net.distance_conn_weights with
    | some w =>
      (List.range net.num_osc).foldl
        (fun (acc : ℚ × ℕ × sync_state) k =>
          if get_connection acc.2.2.conns index k then
            (acc.1 + mat_get w index k * sinq (acc.2.2.oscillators.getD k 0 - teta),
             acc.2.1 + 1, acc.2.2)
          else acc) ((0 : ℚ), (0 : ℕ), net)
    | none =>
      (List.range net.num_osc).foldl
        (fun (acc : ℚ × ℕ × sync_state) k =>
          if get_connection acc.2.2.conns index k then
            (acc.1 + sinq (acc.2.2.oscillators.getD k 0 - teta), acc.2.1 + 1, acc.2.2)
          else acc) ((0 : ℚ), (0 : ℕ), net)
  let num_neighbors : ℕ := if acc.2.1 = 0 then 1 else acc.2.1
  (acc.1 * acc.2.2.weight / (num_neighbors : ℚ), acc.2.2)

/-- The ascending list of neighbours of `index` (specification-side notion,
used to state the Kuramoto claims). -/
def neighbor_list (net : sync_state) (index : ℕ) : List ℕ :=
  (List.range net.num_osc).filter (get_connection net.conns index)

/-- Specification-side edge weight: the stored normalised weight when the
weight matrix is present, 1 when it is absent. -/
def edge_weight (net : sync_state) (i k : ℕ) : ℚ :=
  match net.distance_conn_weights with
  | some w => mat_get w i k
  | none => 1

/-- C1: the claim states that with weighting enabled the recorded squared
distances are normalised via `(d - dmin) / (dmax - dmin)` with `dmin`/`dmax`
the minimum/maximum recorded pairwise distance, and that when all pairwise
distances are equal every normalised weight is 0.  The code violates this:
`minimum_distance` is never updated away from `DBL_MAX` (the second update
in the loop lowers `maximum_distance` instead), so for two coincident
points — all pairwise distances equal (to 0) — the normalised weight is
`(0 - DBL_MAX) / (0 - DBL_MAX) = 1`, not 0. -/
theorem C1_weighted_normalization_evaluated :
    (syncnet_create_connections [[0], [0]] 1 true).distance_conn_weights =
      some [[0, 1], [1, 0]] := by
  simp only [syncnet_create_connections, pair_list, conn_loop_step, create_none_connections,
    euclidean_distance_sqrt, set_connection, mat_set, mat_get, DBL_MAX]
  norm_num [conn_loop_step, euclidean_distance_sqrt, mat_set, mat_get, set_connection,
    List.range, List.range.loop, List.flatMap, List.set, List.getD, List.replicate]

/-- C2: the claim states that LIST_BIDIR on `n` oscillators yields
`getConnection(i, i+1)` and `getConnection(i+1, i)` true for every
`0 ≤ i < n-1`.  The code violates this at `i = 0`: its loop starts at
`index = 1` (with a then-redundant `index > 0` guard betraying the
intended start at 0), so the direction `0 → 1` is never set.  Evaluated
at `n = 2`: the only recorded edge is `1 → 0`. -/
theorem C2_list_bidir_evaluated :
    get_connection (create_list_bidir_connections 2) 0 1 = false ∧
    get_connection (create_list_bidir_connections 2) 1 0 = true ∧
    create_list_bidir_connections 2 = [(1, 0)] := by decide

/-- C3: the claim states that above the dense-matrix threshold each row
gets `ceil(oscillatorCount / wordBits)` elements (`wordBits` = 32).  The
code computes `std::ceil(number_oscillators / sizeof(unsigned int))`:
an integer division by 4 (bytes, not bits) whose result `std::ceil`
leaves unchanged.  Evaluated with threshold 8 and 16 oscillators: the
code allocates rows of `16 / 4 = 4` elements, while the claim demands
`ceil(16 / 32) = 1`. -/
theorem C3_bitmap_element_count_evaluated :
    network_ctor_rows 16 8 = List.replicate 16 (List.replicate 4 0) ∧
    (network_ctor_repr 16 8).1 = conn_represent.BITMAP_CONN_REPRESENTATION ∧
    (network_ctor_repr 16 8).2 = 4 ∧ (16 + 31) / 32 = 1 ∧ (4 : ℕ) ≠ 1 := by decide

/-- C6 counterexample: the claim asserts that for EVERY perfect-square `n`
the GRID_EIGHT edge set is a STRICT superset of the GRID_FOUR edge set.
At `n = 1` (a perfect square) both builders succeed with the empty edge
set, so the inclusion is not strict. -/
theorem C6_counterexample_n1 :
    (Nat.sqrt 1 * Nat.sqrt 1 = 1) ∧
    create_grid_four_connections 1 = Except.ok [] ∧
    create_grid_eight_connections 1 = Except.ok [] := ⟨by decide, rfl, rfl⟩

/-- C7 counterexample: the claim asserts that for EVERY perfect-square `n`
each GRID_FOUR corner node has exactly 2 neighbours.  At `n = 1` (a
perfect square) node 0 is a corner of the 1×1 grid (its row and column
are both first and last), yet it has 0 neighbours. -/
theorem C7_counterexample_n1 :
    (Nat.sqrt 1 * Nat.sqrt 1 = 1) ∧
    create_structure 1 conn_type.GRID_FOUR = Except.ok [] ∧
    (get_neighbors [] 1 0).length = 0 := ⟨by decide, rfl, by decide⟩

/-- C8: constructing with GRID_FOUR or GRID_EIGHT fails with
`InvalidGridSize` if and only if the oscillator count is not a perfect
square, and succeeds for every perfect square. -/
theorem C8_grid_invalid_size_iff (n : ℕ) :
    ((∃ k, k * k = n) →
      (create_structure n conn_type.GRID_FOUR).isOk = true ∧
      (create_structure n conn_type.GRID_EIGHT).isOk = true) ∧
    (¬ (∃ k, k * k = n) →
      create_structure n conn_type.GRID_FOUR = Except.error NetworkError.InvalidGridSize ∧
      create_structure n conn_type.GRID_EIGHT = Except.error NetworkError.InvalidGridSize) := by
  have hiff := Nat.exists_mul_self n
  constructor
  · intro h
    have hs : Nat.sqrt n * Nat.sqrt n = n := hiff.mp h
    constructor <;>
      simp [create_structure, create_grid_eight_connections,
        create_grid_four_connections, hs, Except.isOk, Except.toBool]
  · intro h
    have hs : ¬ Nat.sqrt n * Nat.sqrt n = n := fun hh => h (hiff.mpr hh)
    constructor <;>
      simp [create_structure, create_grid_eight_connections,
        create_grid_four_connections, hs]

/-- Witness for C8 at concrete inputs: 9 is a perfect square and grid
construction succeeds; 8 is not and construction fails. -/
theorem C8_witness :
    (create_structure 9 conn_type.GRID_FOUR).isOk = true ∧
    create_structure 8 conn_type.GRID_FOUR = Except.error NetworkError.InvalidGridSize := by
  constructor
  · exact ((C8_grid_invalid_size_iff 9).1 ⟨3, by norm_num⟩).1
  · refine ((C8_grid_invalid_size_iff 8).2 ?_).1
    rintro ⟨k, hk⟩
    have hk3 : k < 3 := by nlinarith
    interval_cases k <;> omega

theorem mem_pair_list (n i j : ℕ) : (i, j) ∈ pair_list n ↔ i < j ∧ j < n := by
  simp only [pair_list, List.mem_flatMap, List.mem_map, List.mem_range, List.mem_range'_1,
    Prod.mk.injEq]
  constructor
  · rintro ⟨a, ha, b, ⟨hb1, hb2⟩, rfl, rfl⟩
    omega
  · rintro ⟨h1, h2⟩
    exact ⟨i, by omega, j, ⟨by omega, by omega⟩, rfl, rfl⟩

theorem euclidean_distance_sqrt_comm (a b : List ℚ) :
    euclidean_distance_sqrt a b = euclidean_distance_sqrt b a := by
  unfold euclidean_distance_sqrt
  rw [List.zipWith_comm_of_comm]
  intro x y
  ring

theorem conn_loop_step_fst (points : List (List ℚ)) (r : ℚ) (en : Bool)
    (st : List (ℕ × ℕ) × List (List ℚ) × ℚ) (p : ℕ × ℕ) :
    (conn_loop_step points r en st p).1 =
      if euclidean_distance_sqrt (points.getD p.1 []) (points.getD p.2 []) ≤ r then
        (p.1, p.2) :: (p.2, p.1) :: st.1
      else st.1 := by
  simp only [conn_loop_step, set_connection]
  cases en <;> simp

theorem conn_foldl_eq (points : List (List ℚ)) (r : ℚ) (en : Bool) :
    ∀ (l : List (ℕ × ℕ)) (st : List (ℕ × ℕ) × List (List ℚ) × ℚ),
      (l.foldl (conn_loop_step points r en) st).1 =
        (l.reverse.flatMap fun p =>
          if euclidean_distance_sqrt (points.getD p.1 []) (points.getD p.2 []) ≤ r then
            [(p.1, p.2), (p.2, p.1)] else []) ++ st.1 := by
  intro l
  induction l with
  | nil => intro st; simp
  | cons p l ih =>
    intro st
    rw [List.foldl_cons, ih, List.reverse_cons, List.flatMap_append, conn_loop_step_fst,
      List.flatMap_cons, List.flatMap_nil]
    by_cases hd :
        euclidean_distance_sqrt (points.getD p.1 []) (points.getD p.2 []) ≤ r
    · rw [if_pos hd, if_pos hd, List.append_nil, List.append_assoc]
      rfl
    · rw [if_neg hd, if_neg hd, List.append_nil, List.append_nil]

theorem syncnet_conns_eq (points : List (List ℚ)) (r : ℚ) (en : Bool) :
    (syncnet_create_connections points r en).conns =
      ((pair_list points.length).reverse.flatMap fun p =>
        if euclidean_distance_sqrt (points.getD p.1 []) (points.getD p.2 []) ≤ r * r then
          [(p.1, p.2), (p.2, p.1)] else []) := by
  simp only [syncnet_create_connections]
  cases en <;>
    simp [conn_foldl_eq, create_none_connections]

/-- C4: the radius-based builder connects a pair `(i, j)`, `i ≠ j`, with a
symmetric edge if and only if their squared Euclidean distance is at most
`radius²` (hence: two points farther apart than `radius` never get a direct
edge, and two points at distance 0 always do when `radius > 0`, since
`0 ≤ radius²`). -/
theorem C4_radius_edge_iff (points : List (List ℚ)) (radius : ℚ) (weighted : Bool)
    (i j : ℕ) (hi : i < points.length) (hj : j < points.length) (hij : i ≠ j) :
    get_connection (syncnet_create_connections points radius weighted).conns i j = true ↔
      euclidean_distance_sqrt (points.getD i []) (points.getD j []) ≤ radius * radius := by
  rw [syncnet_conns_eq, get_connection, decide_eq_true_eq, List.mem_flatMap]
  constructor
  · rintro ⟨⟨p1, p2⟩, hp, hmem⟩
    rw [List.mem_reverse, mem_pair_list] at hp
    by_cases hd :
        euclidean_distance_sqrt (points.getD p1 []) (points.getD p2 []) ≤ radius * radius
    · rw [if_pos hd] at hmem
      simp only [List.mem_cons, List.not_mem_nil, or_false, Prod.mk.injEq] at hmem
      rcases hmem with ⟨rfl, rfl⟩ | ⟨rfl, rfl⟩
      · exact hd
      · rwa [euclidean_distance_sqrt_comm]
    · rw [if_neg hd] at hmem
      simp at hmem
  · intro hd
    rcases Nat.lt_or_ge i j with hlt | hge
    · refine ⟨(i, j), ?_, ?_⟩
      · rw [List.mem_reverse, mem_pair_list]
        exact ⟨hlt, hj⟩
      · rw [if_pos hd]
        simp
    · have hlt : j < i := by omega
      refine ⟨(j, i), ?_, ?_⟩
      · rw [List.mem_reverse, mem_pair_list]
        exact ⟨hlt, hi⟩
      · rw [if_pos (by rwa [euclidean_distance_sqrt_comm])]
        simp

/-- Witness for C4: points `[0]` and `[1]` with radius 2 are connected. -/
theorem C4_witness :
    get_connection (syncnet_create_connections [[0], [1]] 2 false).conns 0 1 = true ∧
    euclidean_distance_sqrt [(0 : ℚ)] [1] ≤ 2 * 2 := by
  have hd : euclidean_distance_sqrt [(0 : ℚ)] [1] ≤ 2 * 2 := by
    norm_num [euclidean_distance_sqrt]
  exact ⟨(C4_radius_edge_iff [[0], [1]] 2 false 0 1 (by decide) (by decide)
    (by decide)).mpr hd, hd⟩

theorem kuramoto_foldl (pred : ℕ → Bool) (f : ℕ → ℚ) :
    ∀ (l : List ℕ) (a : ℚ) (c : ℕ),
      l.foldl (fun (acc : ℚ × ℕ) k =>
          if pred k then (acc.1 + f k, acc.2 + 1) else acc) (a, c) =
        (a + ((l.filter pred).map f).sum, c + (l.filter pred).length) := by
  intro l
  induction l with
  | nil => intro a c; simp
  | cons x l ih =>
    intro a c
    rw [List.foldl_cons]
    cases hx : pred x <;>
      simp [List.filter_cons, hx, ih, add_assoc, add_comm, add_left_comm]

theorem nat_if_zero_else_eq_max (c : ℕ) : (if c = 0 then 1 else c) = max c 1 := by
  rcases Nat.eq_zero_or_pos c with rfl | hc
  · simp
  · rw [if_neg (by omega), Nat.max_eq_left hc]

/-- C5: the Kuramoto phase derivative for oscillator `index` with phase
argument `teta` equals `(weight / numNeighbors) · Σ_k edgeWeight(index,k) ·
sin(phase(k) − teta)` over the connected neighbours `k`, where the edge
weight is the stored normalised weight when the weight matrix is present
and 1 when it is absent, and a zero neighbour count is replaced by 1 in
the denominator. -/
theorem C5_phase_kuramoto_formula (net : sync_state) (sinq : ℚ → ℚ) (t teta : ℚ)
    (index : ℕ) :
    phase_kuramoto net sinq t teta index =
      net.weight / ((max (neighbor_list net index).length 1 : ℕ) : ℚ) *
        ((neighbor_list net index).map
          (fun k => edge_weight net index k *
            sinq (net.oscillators.getD k 0 - teta))).sum := by
  unfold phase_kuramoto neighbor_list edge_weight
  cases hw : net.distance_conn_weights with
  | some w =>
    simp only []
    rw [kuramoto_foldl]
    simp only [zero_add, nat_if_zero_else_eq_max]
    ring
  | none =>
    simp only []
    rw [kuramoto_foldl]
    simp only [zero_add, nat_if_zero_else_eq_max, one_mul]
    ring

theorem run_foldl_eq (pred : sync_state → ℕ → Bool) (f : sync_state → ℕ → ℚ)
    (net : sync_state) :
    ∀ (l : List ℕ) (a : ℚ) (c : ℕ),
      (l.foldl (fun (acc : ℚ × ℕ × sync_state) k =>
          if pred acc.2.2 k then (acc.1 + f acc.2.2 k, acc.2.1 + 1, acc.2.2)
          else acc) (a, c, net)) =
        ((l.foldl (fun (acc : ℚ × ℕ) k =>
          if pred net k then (acc.1 + f net k, acc.2 + 1) else acc) (a, c)).1,
         (l.foldl (fun (acc : ℚ × ℕ) k =>
          if pred net k then (acc.1 + f net k, acc.2 + 1) else acc) (a, c)).2,
         net) := by
  intro l
  induction l with
  | nil => intro a c; simp
  | cons x l ih =>
    intro a c
    rw [List.foldl_cons, List.foldl_cons]
    cases hx : pred net x <;> simp only [hx] <;> exact ih _ _

/-- C10: the Kuramoto phase-derivative computation is a pure observer:
threading the network state explicitly through every step of the
computation, the state that comes out is exactly the state that went in —
no phase, adjacency entry or weight entry is modified — and the value
computed is that of the pure function. -/
theorem C10_phase_kuramoto_pure (net : sync_state) (sinq : ℚ → ℚ) (t teta : ℚ)
    (index : ℕ) :
    (phase_kuramoto_run net sinq t teta index).2 = net ∧
    (phase_kuramoto_run net sinq t teta index).1 =
      phase_kuramoto net sinq t teta index := by
  unfold phase_kuramoto_run phase_kuramoto
  cases hw : net.distance_conn_weights with
  | some w =>
    simp only []
    rw [run_foldl_eq (fun s k => get_connection s.conns index k)
      (fun s k => mat_get w index k * sinq (s.oscillators.getD k 0 - teta)) net]
    exact ⟨rfl, rfl⟩
  | none =>
    simp only []
    rw [run_foldl_eq (fun s k => get_connection s.conns index k)
      (fun s k => sinq (s.oscillators.getD k 0 - teta)) net]
    exact ⟨rfl, rfl⟩

theorem mul_pred_add (s q : ℕ) (h : 1 ≤ q) : s * (q - 1) + s = s * q := by
  rw [← Nat.mul_succ]
  congr 1
  omega

theorem div_of_decomp (s A B X : ℕ) (hs : 0 < s) (hX : X = s * A + B) (hB : B < s) :
    X / s = A := by
  rw [hX, Nat.mul_add_div hs, Nat.div_eq_of_lt hB]
  omega

theorem mod_of_decomp (s A B X : ℕ) (hs : 0 < s) (hX : X = s * A + B) (hB : B < s) :
    X % s = B := by
  rw [hX, Nat.mul_add_mod]
  exact Nat.mod_eq_of_lt hB

/-- Key inequality for the wrapped (underflowed) upper-diagonal candidates:
a value of the form `U32 - k` (`1 ≤ k ≤ 65536`), divided by the grid side,
can never equal the wrapped-or-not row index `usub32 q 1`. -/
theorem wrap_div_ne (s q k : ℕ) (hs : 2 ≤ s) (hs65 : s ≤ 65535) (hq : q ≤ 65535)
    (hk : 1 ≤ k) (hk65 : k ≤ 65536) : (U32 - k) / s ≠ usub32 q 1 := by
  rcases Nat.eq_zero_or_pos q with rfl | hq1
  · have h1 : usub32 0 1 = U32 - 1 := by unfold usub32 U32; omega
    rw [h1]
    have h2 : (U32 - k) / s ≤ (U32 - k) / 2 := Nat.div_le_div_left hs (by omega)
    have h3 : (U32 - k) / 2 ≤ U32 / 2 := Nat.div_le_div_right (by omega)
    have h4 : U32 / 2 = 2147483648 := by simp only [U32]
    have h5 : U32 = 4294967296 := rfl
    omega
  · have h1 : usub32 q 1 = q - 1 := by unfold usub32 U32; omega
    rw [h1]
    have h5 : U32 = 4294967296 := rfl
    have h2 : 65536 * s ≤ U32 - k := by omega
    have h3 : 65536 ≤ (U32 - k) / s := (Nat.le_div_iff_mul_le (by omega)).mpr (by omega)
    omega

theorem mem_ite_pair (c : Prop) [Decidable c] (x : ℕ × ℕ) (a b : ℕ) :
    (x ∈ if c then [(a, b)] else []) ↔ c ∧ x = (a, b) := by
  split <;> simp [*]

theorem grid_four_at_fst (n s a x y : ℕ)
    (h : (x, y) ∈ grid_four_connections_at n s a) : x = a := by
  unfold grid_four_connections_at at h
  simp only [List.mem_append, mem_ite_pair] at h
  rcases h with ((⟨-, h⟩ | ⟨-, h⟩) | ⟨-, h⟩) | ⟨-, h⟩ <;> exact congrArg Prod.fst h

theorem grid_eight_at_fst (n s a x y : ℕ)
    (h : (x, y) ∈ grid_eight_connections_at n s a) : x = a := by
  unfold grid_eight_connections_at at h
  simp only [List.mem_append, mem_ite_pair] at h
  rcases h with ((⟨-, h⟩ | ⟨-, h⟩) | ⟨-, h⟩) | ⟨-, h⟩ <;> exact congrArg Prod.fst h

theorem mem_flatMap_at (f : ℕ → List (ℕ × ℕ))
    (hf : ∀ a x y, (x, y) ∈ f a → x = a) (n i j : ℕ) :
    ((i, j) ∈ (List.range n).flatMap f) ↔ (i < n ∧ (i, j) ∈ f i) := by
  rw [List.mem_flatMap]
  constructor
  · rintro ⟨a, ha, hm⟩
    have := hf a i j hm
    subst this
    exact ⟨List.mem_range.mp ha, hm⟩
  · rintro ⟨hi, hm⟩
    exact ⟨i, List.mem_range.mpr hi, hm⟩

theorem all_to_all_no_self (n i : ℕ) : (i, i) ∉ create_all_to_all_connections n := by
  intro h
  unfold create_all_to_all_connections at h
  simp only [List.mem_flatMap, List.mem_range, List.mem_range'_1, List.mem_cons,
    List.not_mem_nil, or_false, Prod.mk.injEq] at h
  obtain ⟨row, hrow, col, hcol, hcc⟩ := h
  rcases hcc with ⟨h1, h2⟩ | ⟨h1, h2⟩ <;> omega

theorem list_bidir_no_self (n i : ℕ) : (i, i) ∉ create_list_bidir_connections n := by
  intro h
  unfold create_list_bidir_connections at h
  simp only [List.mem_flatMap, List.mem_range'_1, List.mem_append, mem_ite_pair,
    Prod.mk.injEq] at h
  obtain ⟨a, ha, hm⟩ := h
  rcases hm with ⟨hc, h1, h2⟩ | ⟨hc, h1, h2⟩ <;> omega

theorem grid_four_at_no_self (n s i : ℕ) (hs : 1 ≤ s) (hs65 : s ≤ 65535)
    (hi : i < U32) : (i, i) ∉ grid_four_connections_at n s i := by
  intro h
  unfold grid_four_connections_at at h
  simp only [List.mem_append, mem_ite_pair, Prod.mk.injEq] at h
  unfold usub32 at h
  unfold U32 at h hi
  rcases h with ((⟨-, -, h⟩ | ⟨-, -, h⟩) | ⟨-, -, h⟩) | ⟨-, -, h⟩ <;> omega

theorem grid_eight_at_no_self (n s i : ℕ) (hs : 1 ≤ s) (hs65 : s ≤ 65535)
    (hi : i < U32) : (i, i) ∉ grid_eight_connections_at n s i := by
  intro h
  unfold grid_eight_connections_at at h
  simp only [List.mem_append, mem_ite_pair, Prod.mk.injEq] at h
  rcases h with ((⟨-, -, h⟩ | ⟨hc, -, h⟩) | ⟨hc, -, h⟩) | ⟨-, -, h⟩
  · unfold usub32 at h
    unfold U32 at h hi
    omega
  · have hs1 : s = 1 := by
      unfold usub32 at h
      unfold U32 at h hi
      omega
    subst hs1
    obtain ⟨-, hc2⟩ := hc
    rw [Nat.div_one, Nat.div_one] at hc2
    rw [← h] at hc2
    unfold usub32 at hc2
    unfold U32 at hc2 hi
    omega
  · have hs1 : s = 1 := by
      unfold usub32 at h
      unfold U32 at h hi
      omega
    subst hs1
    obtain ⟨-, hc2⟩ := hc
    rw [Nat.div_one, Nat.div_one] at hc2
    rw [← h] at hc2
    unfold U32 at hc2 hi
    omega
  · unfold U32 at h hi
    omega

theorem syncnet_no_self (points : List (List ℚ)) (r : ℚ) (w : Bool) (i : ℕ) :
    get_connection (syncnet_create_connections points r w).conns i i = false := by
  rw [syncnet_conns_eq, get_connection, decide_eq_false_iff_not]
  intro h
  rw [List.mem_flatMap] at h
  obtain ⟨p, hp, hm⟩ := h
  rw [List.mem_reverse, mem_pair_list] at hp
  split at hm
  · simp only [List.mem_cons, List.not_mem_nil, or_false, Prod.mk.injEq] at hm
    rcases hm with ⟨h1, h2⟩ | ⟨h1, h2⟩ <;> omega
  · simp at hm

theorem sqrt_side_ge_one (n : ℕ) (hsq : Nat.sqrt n * Nat.sqrt n = n) (hn : 1 ≤ n) :
    1 ≤ Nat.sqrt n := by
  rcases Nat.eq_zero_or_pos (Nat.sqrt n) with h0 | h1
  · rw [h0] at hsq
    omega
  · exact h1

theorem sqrt_side_le (n : ℕ) (hsq : Nat.sqrt n * Nat.sqrt n = n) (hn : n < U32) :
    Nat.sqrt n ≤ 65535 := by
  by_contra hlt
  push_neg at hlt
  have h2 : 65536 * 65536 ≤ Nat.sqrt n * Nat.sqrt n :=
    Nat.mul_le_mul (by omega) (by omega)
  unfold U32 at hn
  omega

/-- C9: no topology builder ever creates a self-loop: for every
representable oscillator count, every seccessfully constructed topology
(NONE, ALL_TO_ALL, LIST_BIDIR, GRID_FOUR, GRID_EIGHT) and the radius-based
builder, `getConnection(i, i)` is false for every `i`. -/
theorem C9_no_self_loops :
    (∀ (n : ℕ) (t : conn_type) (c : List (ℕ × ℕ)) (i : ℕ), n < U32 →
      create_structure n t = Except.ok c → get_connection c i i = false) ∧
    (∀ (points : List (List ℚ)) (r : ℚ) (w : Bool) (i : ℕ),
      get_connection (syncnet_create_connections points r w).conns i i = false) := by
  constructor
  · intro n t c i hn hok
    rw [get_connection, decide_eq_false_iff_not]
    intro hmem
    cases t with
    | NONE =>
      simp only [create_structure] at hok
      injection hok with h
      subst h
      simp [create_none_connections] at hmem
    | ALL_TO_ALL =>
      simp only [create_structure] at hok
      injection hok with h
      subst h
      exact all_to_all_no_self n i hmem
    | GRID_FOUR =>
      simp only [create_structure, create_grid_four_connections] at hok
      split at hok
      case isTrue hsq =>
        injection hok with h
        subst h
        rw [mem_flatMap_at _ (grid_four_at_fst n (Nat.sqrt n))] at hmem
        obtain ⟨hin, hm⟩ := hmem
        exact grid_four_at_no_self n (Nat.sqrt n) i
          (sqrt_side_ge_one n hsq (by omega)) (sqrt_side_le n hsq hn)
          (by unfold U32 at hn ⊢; omega) hm
      case isFalse _ => exact Except.noConfusion hok
    | GRID_EIGHT =>
      simp only [create_structure, create_grid_eight_connections] at hok
      by_cases hsq : Nat.sqrt n * Nat.sqrt n = n
      · unfold create_grid_four_connections at hok
        rw [if_pos hsq] at hok
        have hok2 : (Except.ok
            ((List.range n).flatMap (grid_four_connections_at n (Nat.sqrt n)) ++
              (List.range n).flatMap (grid_eight_connections_at n (Nat.sqrt n))) :
            Except NetworkError (List (ℕ × ℕ))) = Except.ok c := hok
        injection hok2 with h
        subst h
        rw [List.mem_append] at hmem
        have hs1 : 1 ≤ Nat.sqrt n := by
          rcases hmem with hm | hm
          · rw [mem_flatMap_at _ (grid_four_at_fst n (Nat.sqrt n))] at hm
            exact sqrt_side_ge_one n hsq (by omega)
          · rw [mem_flatMap_at _ (grid_eight_at_fst n (Nat.sqrt n))] at hm
            exact sqrt_side_ge_one n hsq (by omega)
        rcases hmem with hm | hm
        · rw [mem_flatMap_at _ (grid_four_at_fst n (Nat.sqrt n))] at hm
          exact grid_four_at_no_self n (Nat.sqrt n) i hs1 (sqrt_side_le n hsq hn)
            (by unfold U32 at hn ⊢; omega) hm.2
        · rw [mem_flatMap_at _ (grid_eight_at_fst n (Nat.sqrt n))] at hm
          exact grid_eight_at_no_self n (Nat.sqrt n) i hs1 (sqrt_side_le n hsq hn)
            (by unfold U32 at hn ⊢; omega) hm.2
      · unfold create_grid_four_connections at hok
        rw [if_neg hsq] at hok
        exact Except.noConfusion (show Except.error (α := List (ℕ × ℕ))
          NetworkError.InvalidGridSize = Except.ok c from hok)
    | LIST_BIDIR =>
      simp only [create_structure] at hok
      injection hok with h
      subst h
      exact list_bidir_no_self n i hmem
  · intro points r w i
    exact syncnet_no_self points r w i

/-- Witness for C9: the ALL_TO_ALL network on 3 oscillators has no
self-loop at node 0. -/
theorem C9_witness : get_connection (create_all_to_all_connections 3) 0 0 = false :=
  C9_no_self_loops.1 3 conn_type.ALL_TO_ALL (create_all_to_all_connections 3) 0
    (by unfold U32; omega) rfl

theorem side_le_46340 (s : ℕ) (hb : s * s ≤ 2 ^ 31) : s ≤ 46340 := by
  by_contra hlt
  push_neg at hlt
  have h2 : 46341 * 46341 ≤ s * s := Nat.mul_le_mul (by omega) (by omega)
  omega

theorem grid_four_at_mem (s index j : ℕ) (hs : 2 ≤ s) (hb : s * s ≤ 2 ^ 31)
    (hidx : index < s * s) :
    ((index, j) ∈ grid_four_connections_at (s * s) s index ↔
      (s ≤ index ∧ j = index - s) ∨
      (index + s < s * s ∧ j = index + s) ∨
      (1 ≤ index % s ∧ j = index - 1) ∨
      (index % s + 1 < s ∧ j = index + 1)) := by
  have hs0 : 0 < s := by omega
  have hs46 : s ≤ 46340 := side_le_46340 s hb
  have hqr : s * (index / s) + index % s = index := Nat.div_add_mod index s
  have hr : index % s < s := Nat.mod_lt index hs0
  have hq : index / s < s := (Nat.div_lt_iff_lt_mul hs0).mpr hidx
  unfold grid_four_connections_at
  simp only [List.mem_append, mem_ite_pair, Prod.mk.injEq, eq_self_iff_true, true_and]
  rw [or_assoc, or_assoc]
  have hupper : (0 ≤ toInt32 (usub32 index s) ∧ j = usub32 index s) ↔
      (s ≤ index ∧ j = index - s) := by
    rcases Nat.lt_or_ge index s with hcase | hcase
    · have ht : usub32 index s = U32 - (s - index) := by unfold usub32 U32; omega
      have hneg : ¬ (0 ≤ toInt32 (usub32 index s)) := by
        rw [ht]; unfold toInt32 U32; split <;> omega
      constructor
      · rintro ⟨h0, -⟩; exact absurd h0 hneg
      · rintro ⟨hle, -⟩; omega
    · have ht : usub32 index s = index - s := by unfold usub32 U32; omega
      rw [ht]
      have hpos : 0 ≤ toInt32 (index - s) := by
        unfold toInt32 U32; rw [if_pos (by omega)]; omega
      constructor
      · rintro ⟨-, hj⟩; exact ⟨hcase, hj⟩
      · rintro ⟨-, hj⟩; exact ⟨hpos, hj⟩
  have hlower : ((index + s) % U32 < s * s ∧ j = (index + s) % U32) ↔
      (index + s < s * s ∧ j = index + s) := by
    have ht : (index + s) % U32 = index + s := by unfold U32; omega
    rw [ht]
  have hleft : ((0 ≤ toInt32 (usub32 index 1) ∧ usub32 index 1 / s = index / s) ∧
      j = usub32 index 1) ↔ (1 ≤ index % s ∧ j = index - 1) := by
    rcases Nat.eq_zero_or_pos index with hi0 | hipos
    · have ht : usub32 index 1 = U32 - 1 := by unfold usub32 U32; omega
      have hneg : ¬ (0 ≤ toInt32 (usub32 index 1)) := by
        rw [ht]; unfold toInt32 U32; split <;> omega
      have hr0 : index % s = 0 := by rw [hi0]; exact Nat.zero_mod s
      constructor
      · rintro ⟨⟨h0, -⟩, -⟩; exact absurd h0 hneg
      · rintro ⟨h1, -⟩; omega
    · have ht : usub32 index 1 = index - 1 := by unfold usub32 U32; omega
      rw [ht]
      have hpos0 : 0 ≤ toInt32 (index - 1) := by
        unfold toInt32 U32; rw [if_pos (by omega)]; omega
      rcases Nat.eq_zero_or_pos (index % s) with hr0 | hr1
      · have hq1 : 1 ≤ index / s := by
          rcases Nat.eq_zero_or_pos (index / s) with h0 | h1
          · rw [h0, Nat.mul_zero] at hqr; omega
          · exact h1
        have e1 : s * (index / s - 1) + s = s * (index / s) :=
          mul_pred_add s (index / s) hq1
        have hdiv : (index - 1) / s = index / s - 1 :=
          div_of_decomp s (index / s - 1) (s - 1) _ hs0 (by omega) (by omega)
        constructor
        · rintro ⟨⟨-, hc⟩, -⟩; omega
        · rintro ⟨h1, -⟩; omega
      · have hdiv : (index - 1) / s = index / s :=
          div_of_decomp s (index / s) (index % s - 1) _ hs0 (by omega) (by omega)
        constructor
        · rintro ⟨-, hj⟩; exact ⟨hr1, hj⟩
        · rintro ⟨-, hj⟩; exact ⟨⟨hpos0, hdiv⟩, hj⟩
  have hright : (((index + 1) % U32 < s * s ∧ (index + 1) % U32 / s = index / s) ∧
      j = (index + 1) % U32) ↔ (index % s + 1 < s ∧ j = index + 1) := by
    have ht : (index + 1) % U32 = index + 1 := by unfold U32; omega
    rw [ht]
    rcases Nat.lt_or_ge (index % s + 1) s with hcase | hcase
    · have hdiv : (index + 1) / s = index / s :=
        div_of_decomp s (index / s) (index % s + 1) _ hs0 (by omega) hcase
      have e := mul_pred_add s s (by omega)
      have mono : s * (index / s) ≤ s * (s - 1) := Nat.mul_le_mul_left s (by omega)
      have hlt : index + 1 < s * s := by omega
      constructor
      · rintro ⟨-, hj⟩; exact ⟨hcase, hj⟩
      · rintro ⟨-, hj⟩; exact ⟨⟨hlt, hdiv⟩, hj⟩
    · have hsucc : s * (index / s + 1) = s * (index / s) + s := Nat.mul_succ s (index / s)
      have hdiv : (index + 1) / s = index / s + 1 :=
        div_of_decomp s (index / s + 1) 0 _ hs0 (by omega) hs0
      constructor
      · rintro ⟨⟨-, hc⟩, -⟩; omega
      · rintro ⟨h1, -⟩; omega
  exact or_congr hupper (or_congr hlower (or_congr hleft hright))

theorem countP_or_disjoint (l : List ℕ) (p q : ℕ → Bool)
    (h : ∀ x ∈ l, ¬(p x = true ∧ q x = true)) :
    l.countP (fun x => p x || q x) = l.countP p + l.countP q := by
  induction l with
  | nil => simp
  | cons x l ih =>
    rw [List.countP_cons, List.countP_cons, List.countP_cons,
      ih (fun y hy => h y (List.mem_cons_of_mem x hy))]
    have hx := h x (List.mem_cons_self x l)
    cases hp : p x <;> cases hq : q x <;> simp [hp, hq] at hx ⊢ <;> omega

theorem countP_single (n t : ℕ) (A : Prop) [Decidable A] :
    (List.range n).countP (fun j => decide (A ∧ j = t)) =
      if A ∧ t < n then 1 else 0 := by
  induction n with
  | zero => simp
  | succ m ih =>
    rw [List.range_succ, List.countP_append, ih]
    simp only [List.countP_cons, List.countP_nil]
    by_cases hA : A <;> by_cases ht : t = m <;>
      simp [hA, ht] <;> split_ifs <;> omega

/-- C7 (amended): for every perfect-square oscillator count `n = s*s` with
`2 ≤ s` and `n ≤ 2^31`, GRID_FOUR gives each node exactly 4 neighbours if
it is interior, 3 if it lies on the grid boundary without being a corner,
and 2 if it is a corner; and no connection crosses a row boundary: a
rightmost-column node has no edge to the next index (the leftmost node of
the following row).  The lower bound excludes the degenerate 1×1 grid of
the counterexample; the upper bound reflects the `int`-typed neighbour
indices in the source, which lose edges for indices ≥ 2^31. -/
theorem C7_grid_four_degrees (s : ℕ) (hs : 2 ≤ s) (hb : s * s ≤ 2 ^ 31)
    (c : List (ℕ × ℕ))
    (hc : create_structure (s * s) conn_type.GRID_FOUR = Except.ok c)
    (index : ℕ) (hidx : index < s * s) :
    ((get_neighbors c (s * s) index).length =
      if (index / s = 0 ∨ index / s = s - 1) ∧ (index % s = 0 ∨ index % s = s - 1)
        then 2
      else if (index / s = 0 ∨ index / s = s - 1) ∨ (index % s = 0 ∨ index % s = s - 1)
        then 3
      else 4) ∧
    (index % s = s - 1 → get_connection c index (index + 1) = false) := by
  have hs0 : 0 < s := by omega
  have hsq : Nat.sqrt (s * s) = s := Nat.sqrt_eq s
  simp only [create_structure] at hc
  unfold create_grid_four_connections at hc
  rw [hsq, if_pos rfl] at hc
  injection hc with hc
  subst hc
  have hqr : s * (index / s) + index % s = index := Nat.div_add_mod index s
  have hr : index % s < s := Nat.mod_lt index hs0
  have hq : index / s < s := (Nat.div_lt_iff_lt_mul hs0).mpr hidx
  have hchar : ∀ j, get_connection
      ((List.range (s * s)).flatMap (grid_four_connections_at (s * s) s)) index j
        = true ↔
      ((s ≤ index ∧ j = index - s) ∨ ((index + s < s * s ∧ j = index + s) ∨
       ((1 ≤ index % s ∧ j = index - 1) ∨ (index % s + 1 < s ∧ j = index + 1)))) := by
    intro j
    rw [get_connection, decide_eq_true_eq,
      mem_flatMap_at _ (grid_four_at_fst (s * s) s),
      grid_four_at_mem s index j hs hb hidx]
    simp [hidx]
  have f1 : s ≤ index ↔ 1 ≤ index / s := (Nat.one_le_div_iff hs0).symm
  have f2 : index + s < s * s ↔ index / s + 1 < s := by
    constructor
    · intro h
      by_contra hq2
      push_neg at hq2
      have hqe : index / s = s - 1 := by omega
      have e5 : s * (index / s) = s * (s - 1) := by rw [hqe]
      have e2 : s * (s - 1) + s = s * s := mul_pred_add s s (by omega)
      omega
    · intro h
      have mono : s * (index / s + 1) ≤ s * (s - 1) := Nat.mul_le_mul_left s (by omega)
      have e1 : s * (index / s + 1) = s * (index / s) + s := Nat.mul_succ s (index / s)
      have e2 : s * (s - 1) + s = s * s := mul_pred_add s s (by omega)
      omega
  have f4 : index % s + 1 < s → index + 1 < s * s := by
    intro h
    have mono : s * (index / s + 1) ≤ s * s := Nat.mul_le_mul_left s (by omega)
    have e1 : s * (index / s + 1) = s * (index / s) + s := Nat.mul_succ s (index / s)
    omega
  constructor
  · unfold get_neighbors
    rw [← List.countP_eq_length_filter]
    have hcount : (List.range (s * s)).countP (fun j => get_connection
        ((List.range (s * s)).flatMap (grid_four_connections_at (s * s) s)) index j) =
        (List.range (s * s)).countP (fun j => decide
          ((s ≤ index ∧ j = index - s) ∨ ((index + s < s * s ∧ j = index + s) ∨
           ((1 ≤ index % s ∧ j = index - 1) ∨ (index % s + 1 < s ∧ j = index + 1))))) :=
      List.countP_congr (fun j hj => by rw [decide_eq_true_eq]; exact hchar j)
    rw [hcount]
    simp only [Bool.decide_or]
    have hd3 : ∀ x ∈ List.range (s * s),
        ¬(decide (1 ≤ index % s ∧ x = index - 1) = true ∧
          decide (index % s + 1 < s ∧ x = index + 1) = true) := by
      intro x hx
      simp only [decide_eq_true_eq]
      rintro ⟨⟨h1, e1⟩, h2, e2⟩
      omega
    have hd2 : ∀ x ∈ List.range (s * s),
        ¬(decide (index + s < s * s ∧ x = index + s) = true ∧
          (decide (1 ≤ index % s ∧ x = index - 1) ||
           decide (index % s + 1 < s ∧ x = index + 1)) = true) := by
      intro x hx
      simp only [Bool.or_eq_true, decide_eq_true_eq]
      rintro ⟨⟨h1, e1⟩, ⟨h2, e2⟩ | ⟨h2, e2⟩⟩ <;> omega
    have hd1 : ∀ x ∈ List.range (s * s),
        ¬(decide (s ≤ index ∧ x = index - s) = true ∧
          (decide (index + s < s * s ∧ x = index + s) ||
           (decide (1 ≤ index % s ∧ x = index - 1) ||
            decide (index % s + 1 < s ∧ x = index + 1))) = true) := by
      intro x hx
      simp only [Bool.or_eq_true, decide_eq_true_eq]
      rintro ⟨⟨h1, e1⟩, ⟨h2, e2⟩ | ⟨h2, e2⟩ | ⟨h2, e2⟩⟩ <;> omega
    rw [countP_or_disjoint _ _ _ hd1, countP_or_disjoint _ _ _ hd2,
      countP_or_disjoint _ _ _ hd3,
      countP_single, countP_single, countP_single, countP_single]
    have hq0 : 0 ≤ index / s := Nat.zero_le _
    have hr0 : 0 ≤ index % s := Nat.zero_le _
    split_ifs <;> omega
  · intro hcol
    cases hgc : get_connection
        ((List.range (s * s)).flatMap (grid_four_connections_at (s * s) s)) index
        (index + 1)
    · rfl
    · have hD := (hchar (index + 1)).mp hgc
      rcases hD with ⟨hA, hE⟩ | ⟨hA, hE⟩ | ⟨hA, hE⟩ | ⟨hA, hE⟩ <;> omega

/-- Witness for C7 at `s = 3` (the 3×3 grid): the centre node 4 is interior
and has exactly 4 neighbours. -/
theorem C7_witness :
    ∃ c, create_structure 9 conn_type.GRID_FOUR = Except.ok c ∧
      (get_neighbors c 9 4).length = 4 := by
  have h9 : Nat.sqrt 9 = 3 := Nat.sqrt_eq 3
  have hc : create_structure 9 conn_type.GRID_FOUR =
      Except.ok ((List.range 9).flatMap (grid_four_connections_at 9 3)) := by
    simp only [create_structure]
    unfold create_grid_four_connections
    rw [h9, if_pos (by norm_num)]
  refine ⟨_, hc, ?_⟩
  have h := (C7_grid_four_degrees 3 (by omega) (by omega) _ hc 4 (by omega)).1
  norm_num at h
  exact h

theorem side_le_65535 (s : ℕ) (hb : s * s < U32) : s ≤ 65535 := by
  by_contra hlt
  push_neg at hlt
  have h2 : 65536 * 65536 ≤ s * s := Nat.mul_le_mul (by omega) (by omega)
  unfold U32 at hb
  omega

theorem grid_eight_at_mem (s index j : ℕ) (hs : 2 ≤ s) (hb : s * s < U32)
    (hidx : index < s * s) :
    ((index, j) ∈ grid_eight_connections_at (s * s) s index ↔
      ((1 ≤ index / s ∧ 1 ≤ index % s ∧ j = index - s - 1) ∨
       ((1 ≤ index / s ∧ index % s + 1 < s ∧ j = index - s + 1) ∨
        ((index / s + 1 < s ∧ 1 ≤ index % s ∧ j = index + s - 1) ∨
         (index / s + 1 < s ∧ index % s + 1 < s ∧ j = index + s + 1))))) := by
  have hs0 : 0 < s := by omega
  have hs65 : s ≤ 65535 := side_le_65535 s hb
  have hss : s * s ≤ 4294836225 := Nat.mul_le_mul hs65 hs65
  have hqr : s * (index / s) + index % s = index := Nat.div_add_mod index s
  have hr : index % s < s := Nat.mod_lt index hs0
  have hq : index / s < s := (Nat.div_lt_iff_lt_mul hs0).mpr hidx
  have hq0 : 0 ≤ index / s := Nat.zero_le _
  have hr0 : 0 ≤ index % s := Nat.zero_le _
  unfold grid_eight_connections_at
  simp only [List.mem_append, mem_ite_pair, Prod.mk.injEq, Nat.zero_le, true_and]
  rw [or_assoc, or_assoc]
  have hUL : ((usub32 (usub32 index s) 1 / s = usub32 (index / s) 1) ∧
      j = usub32 (usub32 index s) 1) ↔
      (1 ≤ index / s ∧ 1 ≤ index % s ∧ j = index - s - 1) := by
    rcases Nat.lt_or_ge index (s + 1) with hcase | hcase
    · have ht : usub32 (usub32 index s) 1 = U32 - (s + 1 - index) := by
        unfold usub32 U32
        omega
      have hqv : (index / s = 0 ∧ index % s = index) ∨
          (index = s ∧ index / s = 1 ∧ index % s = 0) := by
        rcases Nat.lt_or_ge index s with h | h
        · exact Or.inl ⟨Nat.div_eq_of_lt h, Nat.mod_eq_of_lt h⟩
        · have he : index = s := by omega
          subst he
          exact Or.inr ⟨rfl, Nat.div_self hs0, Nat.mod_self index⟩
      constructor
      · rintro ⟨hcond, -⟩
        rw [ht] at hcond
        exact absurd hcond (wrap_div_ne s (index / s) (s + 1 - index) hs hs65
          (by omega) (by omega) (by omega))
      · rintro ⟨h1, h2, -⟩
        omega
    · have hq1 : 1 ≤ index / s := (Nat.one_le_div_iff hs0).mpr (by omega)
      have ht : usub32 (usub32 index s) 1 = index - s - 1 := by
        unfold usub32 U32
        omega
      have ht2 : usub32 (index / s) 1 = index / s - 1 := by
        unfold usub32 U32
        omega
      rw [ht, ht2]
      rcases Nat.eq_zero_or_pos (index % s) with hr0 | hr1
      · have hq2 : 2 ≤ index / s := by
          rcases Nat.lt_or_ge (index / s) 2 with h2 | h2
          · have e0 : s * (index / s) ≤ s * 1 := Nat.mul_le_mul_left s (by omega)
            have e1 : s * 1 = s := Nat.mul_one s
            omega
          · exact h2
        have e1 : s * (index / s - 1) + s = s * (index / s) :=
          mul_pred_add s (index / s) (by omega)
        have e2 : s * (index / s - 2) + s = s * (index / s - 1) := by
          have h3 := mul_pred_add s (index / s - 1) (by omega)
          rwa [show index / s - 1 - 1 = index / s - 2 from by omega] at h3
        have hdiv : (index - s - 1) / s = index / s - 2 :=
          div_of_decomp s (index / s - 2) (s - 1) _ hs0 (by omega) (by omega)
        constructor
        · rintro ⟨hc, -⟩
          omega
        · rintro ⟨-, hcr, -⟩
          omega
      · have e1 : s * (index / s - 1) + s = s * (index / s) :=
          mul_pred_add s (index / s) hq1
        have hdiv : (index - s - 1) / s = index / s - 1 :=
          div_of_decomp s (index / s - 1) (index % s - 1) _ hs0 (by omega) (by omega)
        constructor
        · rintro ⟨-, hj⟩
          exact ⟨hq1, hr1, hj⟩
        · rintro ⟨-, -, hj⟩
          exact ⟨hdiv, hj⟩
  have hUR : (((usub32 index s + 1) % U32 / s = usub32 (index / s) 1) ∧
      j = (usub32 index s + 1) % U32) ↔
      (1 ≤ index / s ∧ index % s + 1 < s ∧ j = index - s + 1) := by
    rcases Nat.lt_or_ge index s with hcase | hcase
    · have hq0 : index / s = 0 := Nat.div_eq_of_lt hcase
      have ht2 : usub32 (index / s) 1 = U32 - 1 := by
        rw [hq0]
        unfold usub32 U32
        omega
      rcases Nat.lt_or_ge (index + 1) s with hc2 | hc2
      · have ht : (usub32 index s + 1) % U32 = U32 - (s - 1 - index) := by
          unfold usub32 U32
          omega
        constructor
        · rintro ⟨hcond, -⟩
          rw [ht, ht2] at hcond
          have hne := wrap_div_ne s (index / s) (s - 1 - index) hs hs65
            (by omega) (by omega) (by omega)
          rw [ht2] at hne
          exact absurd hcond hne
        · rintro ⟨h1, -, -⟩
          omega
      · have ht : (usub32 index s + 1) % U32 = 0 := by
          unfold usub32 U32
          omega
        rw [ht, ht2, Nat.zero_div]
        constructor
        · rintro ⟨hcond, -⟩
          unfold U32 at hcond
          omega
        · rintro ⟨h1, -, -⟩
          omega
    · have hq1 : 1 ≤ index / s := (Nat.one_le_div_iff hs0).mpr hcase
      have ht : (usub32 index s + 1) % U32 = index - s + 1 := by
        unfold usub32 U32
        omega
      have ht2 : usub32 (index / s) 1 = index / s - 1 := by
        unfold usub32 U32
        omega
      rw [ht, ht2]
      have e1 : s * (index / s - 1) + s = s * (index / s) :=
        mul_pred_add s (index / s) hq1
      rcases Nat.lt_or_ge (index % s + 1) s with hc2 | hc2
      · have hdiv : (index - s + 1) / s = index / s - 1 :=
          div_of_decomp s (index / s - 1) (index % s + 1) _ hs0 (by omega) hc2
        constructor
        · rintro ⟨-, hj⟩
          exact ⟨hq1, hc2, hj⟩
        · rintro ⟨-, -, hj⟩
          exact ⟨hdiv, hj⟩
      · have hdiv : (index - s + 1) / s = index / s :=
          div_of_decomp s (index / s) 0 _ hs0 (by omega) hs0
        constructor
        · rintro ⟨hc, -⟩
          omega
        · rintro ⟨-, hcr, -⟩
          omega
  have hLL : ((usub32 ((index + s) % U32) 1 < s * s ∧
      usub32 ((index + s) % U32) 1 / s = (index / s + 1) % U32) ∧
      j = usub32 ((index + s) % U32) 1) ↔
      (index / s + 1 < s ∧ 1 ≤ index % s ∧ j = index + s - 1) := by
    have hin : (index + s) % U32 = index + s := by
      unfold U32
      omega
    rw [hin]
    have ht : usub32 (index + s) 1 = index + s - 1 := by
      unfold usub32 U32
      omega
    have hrow : (index / s + 1) % U32 = index / s + 1 := by
      unfold U32
      omega
    rw [ht, hrow]
    have e1 : s * (index / s + 1) = s * (index / s) + s := Nat.mul_succ s (index / s)
    have e2 : s * (s - 1) + s = s * s := mul_pred_add s s (by omega)
    rcases Nat.eq_zero_or_pos (index % s) with hr0 | hr1
    · have hdiv : (index + s - 1) / s = index / s :=
        div_of_decomp s (index / s) (s - 1) _ hs0 (by omega) (by omega)
      constructor
      · rintro ⟨⟨-, hc⟩, -⟩
        omega
      · rintro ⟨-, hcr, -⟩
        omega
    · have hdiv : (index + s - 1) / s = index / s + 1 :=
        div_of_decomp s (index / s + 1) (index % s - 1) _ hs0 (by omega) (by omega)
      have hbound : index + s - 1 < s * s ↔ index / s + 1 < s := by
        constructor
        · intro h
          by_contra hq2
          push_neg at hq2
          have hqe : index / s + 1 = s := by omega
          have e5 : s * (index / s + 1) = s * s := by rw [hqe]
          omega
        · intro h
          have mono : s * (index / s + 1) ≤ s * (s - 1) :=
            Nat.mul_le_mul_left s (by omega)
          omega
      constructor
      · rintro ⟨⟨hbd, -⟩, hj⟩
        exact ⟨hbound.mp hbd, hr1, hj⟩
      · rintro ⟨hqlt, -, hj⟩
        exact ⟨⟨hbound.mpr hqlt, hdiv⟩, hj⟩
  have hLR : (((index + s + 1) % U32 < s * s ∧
      (index + s + 1) % U32 / s = (index / s + 1) % U32) ∧
      j = (index + s + 1) % U32) ↔
      (index / s + 1 < s ∧ index % s + 1 < s ∧ j = index + s + 1) := by
    have hin : (index + s + 1) % U32 = index + s + 1 := by
      unfold U32
      omega
    have hrow : (index / s + 1) % U32 = index / s + 1 := by
      unfold U32
      omega
    rw [hin, hrow]
    have e1 : s * (index / s + 1) = s * (index / s) + s := Nat.mul_succ s (index / s)
    have e2 : s * (s - 1) + s = s * s := mul_pred_add s s (by omega)
    rcases Nat.lt_or_ge (index % s + 1) s with hc2 | hc2
    · have hdiv : (index + s + 1) / s = index / s + 1 :=
        div_of_decomp s (index / s + 1) (index % s + 1) _ hs0 (by omega) hc2
      have hbound : index + s + 1 < s * s ↔ index / s + 1 < s := by
        constructor
        · intro h
          by_contra hq2
          push_neg at hq2
          have hqe : index / s + 1 = s := by omega
          have e5 : s * (index / s + 1) = s * s := by rw [hqe]
          omega
        · intro h
          have mono : s * (index / s + 1) ≤ s * (s - 1) :=
            Nat.mul_le_mul_left s (by omega)
          omega
      constructor
      · rintro ⟨⟨hbd, -⟩, hj⟩
        exact ⟨hbound.mp hbd, hc2, hj⟩
      · rintro ⟨hqlt, -, hj⟩
        exact ⟨⟨hbound.mpr hqlt, hdiv⟩, hj⟩
    · have e6 : s * (index / s + 2) = s * (index / s + 1) + s := Nat.mul_succ s (index / s + 1)
      have hdiv : (index + s + 1) / s = index / s + 2 :=
        div_of_decomp s (index / s + 2) 0 _ hs0 (by omega) hs0
      constructor
      · rintro ⟨⟨-, hc⟩, -⟩
        omega
      · rintro ⟨-, hcr, -⟩
        omega
  exact or_congr hUL (or_congr hUR (or_congr hLL hLR))

theorem quad_iff_coord (s i j : ℕ) (hs : 2 ≤ s) (hb : s * s < U32) (hi : i < s * s) :
    ((1 ≤ i / s ∧ 1 ≤ i % s ∧ j = i - s - 1) ∨
     ((1 ≤ i / s ∧ i % s + 1 < s ∧ j = i - s + 1) ∨
      ((i / s + 1 < s ∧ 1 ≤ i % s ∧ j = i + s - 1) ∨
       (i / s + 1 < s ∧ i % s + 1 < s ∧ j = i + s + 1)))) ↔
    (j < s * s ∧ (j / s = i / s + 1 ∨ j / s + 1 = i / s) ∧
      (j % s = i % s + 1 ∨ j % s + 1 = i % s)) := by
  have hs0 : 0 < s := by omega
  have hqr : s * (i / s) + i % s = i := Nat.div_add_mod i s
  have hr : i % s < s := Nat.mod_lt i hs0
  have hq : i / s < s := (Nat.div_lt_iff_lt_mul hs0).mpr hi
  have hq0 : 0 ≤ i / s := Nat.zero_le _
  have e1 : s * (i / s + 1) = s * (i / s) + s := Nat.mul_succ s (i / s)
  have e2 : s * (s - 1) + s = s * s := mul_pred_add s s (by omega)
  constructor
  · rintro (⟨h1, h2, rfl⟩ | ⟨h1, h2, rfl⟩ | ⟨h1, h2, rfl⟩ | ⟨h1, h2, rfl⟩)
    · have e3 : s * (i / s - 1) + s = s * (i / s) := mul_pred_add s (i / s) h1
      have hdj : (i - s - 1) / s = i / s - 1 :=
        div_of_decomp s (i / s - 1) (i % s - 1) _ hs0 (by omega) (by omega)
      have hmj : (i - s - 1) % s = i % s - 1 :=
        mod_of_decomp s (i / s - 1) (i % s - 1) _ hs0 (by omega) (by omega)
      exact ⟨by omega, Or.inr (by omega), Or.inr (by omega)⟩
    · have e3 : s * (i / s - 1) + s = s * (i / s) := mul_pred_add s (i / s) h1
      have hdj : (i - s + 1) / s = i / s - 1 :=
        div_of_decomp s (i / s - 1) (i % s + 1) _ hs0 (by omega) (by omega)
      have hmj : (i - s + 1) % s = i % s + 1 :=
        mod_of_decomp s (i / s - 1) (i % s + 1) _ hs0 (by omega) (by omega)
      exact ⟨by omega, Or.inr (by omega), Or.inl (by omega)⟩
    · have hdj : (i + s - 1) / s = i / s + 1 :=
        div_of_decomp s (i / s + 1) (i % s - 1) _ hs0 (by omega) (by omega)
      have hmj : (i + s - 1) % s = i % s - 1 :=
        mod_of_decomp s (i / s + 1) (i % s - 1) _ hs0 (by omega) (by omega)
      have mono : s * (i / s + 1) ≤ s * (s - 1) := Nat.mul_le_mul_left s (by omega)
      exact ⟨by omega, Or.inl (by omega), Or.inr (by omega)⟩
    · have hdj : (i + s + 1) / s = i / s + 1 :=
        div_of_decomp s (i / s + 1) (i % s + 1) _ hs0 (by omega) (by omega)
      have hmj : (i + s + 1) % s = i % s + 1 :=
        mod_of_decomp s (i / s + 1) (i % s + 1) _ hs0 (by omega) (by omega)
      have mono : s * (i / s + 1) ≤ s * (s - 1) := Nat.mul_le_mul_left s (by omega)
      exact ⟨by omega, Or.inl (by omega), Or.inl (by omega)⟩
  · rintro ⟨hj, hrow, hcol⟩
    have hjqr : s * (j / s) + j % s = j := Nat.div_add_mod j s
    have hjr : j % s < s := Nat.mod_lt j hs0
    have hjq : j / s < s := (Nat.div_lt_iff_lt_mul hs0).mpr hj
    have hjq0 : 0 ≤ j / s := Nat.zero_le _
    have hjr0 : 0 ≤ j % s := Nat.zero_le _
    rcases hrow with hrw | hrw <;> rcases hcol with hcl | hcl
    · have ejq : s * (j / s) = s * (i / s) + s := by rw [hrw]; exact e1
      exact Or.inr (Or.inr (Or.inr ⟨by omega, by omega, by omega⟩))
    · have ejq : s * (j / s) = s * (i / s) + s := by rw [hrw]; exact e1
      exact Or.inr (Or.inr (Or.inl ⟨by omega, by omega, by omega⟩))
    · have ejq : s * (j / s) + s = s * (i / s) := by
        rw [← hrw]
        exact (Nat.mul_succ s (j / s)).symm
      exact Or.inr (Or.inl ⟨by omega, by omega, by omega⟩)
    · have ejq : s * (j / s) + s = s * (i / s) := by
        rw [← hrw]
        exact (Nat.mul_succ s (j / s)).symm
      exact Or.inl ⟨by omega, by omega, by omega⟩

/-- C6 (amended): for every perfect-square oscillator count `n = s*s` with
`2 ≤ s` (and `n` representable as `unsigned int`), the GRID_EIGHT edge set
is a strict superset of the GRID_FOUR edge set: every GRID_FOUR edge is
present, the additional edges connect each node exactly to its existing
diagonal neighbours — nodes whose row index differs by exactly one and
whose column index differs by exactly one (no wraparound across row
boundaries) — and at least one such additional edge exists.  The bound
`2 ≤ s` excludes the degenerate 1×1 grid of the counterexample, where the
two edge sets coincide. -/
theorem C6_grid_eight_extends (s : ℕ) (hs : 2 ≤ s) (hb : s * s < U32)
    (cf ce : List (ℕ × ℕ))
    (hcf : create_structure (s * s) conn_type.GRID_FOUR = Except.ok cf)
    (hce : create_structure (s * s) conn_type.GRID_EIGHT = Except.ok ce) :
    (∀ i j, get_connection cf i j = true → get_connection ce i j = true) ∧
    (∀ i j, i < s * s →
      (get_connection ce i j = true ↔ (get_connection cf i j = true ∨
        (j < s * s ∧ (j / s = i / s + 1 ∨ j / s + 1 = i / s) ∧
          (j % s = i % s + 1 ∨ j % s + 1 = i % s))))) ∧
    (∃ i j, get_connection ce i j = true ∧ get_connection cf i j = false) := by
  have hs0 : 0 < s := by omega
  have hsq : Nat.sqrt (s * s) = s := Nat.sqrt_eq s
  simp only [create_structure] at hcf hce
  unfold create_grid_four_connections at hcf
  rw [hsq, if_pos rfl] at hcf
  injection hcf with hcf
  subst hcf
  unfold create_grid_eight_connections create_grid_four_connections at hce
  rw [hsq, if_pos rfl] at hce
  have hce2 : (Except.ok
      ((List.range (s * s)).flatMap (grid_four_connections_at (s * s) s) ++
        (List.range (s * s)).flatMap (grid_eight_connections_at (s * s) s)) :
      Except NetworkError (List (ℕ × ℕ))) = Except.ok ce := hce
  injection hce2 with hce2
  subst hce2
  refine ⟨?_, ?_, ?_⟩
  · intro i j h
    rw [get_connection, decide_eq_true_eq] at h ⊢
    exact List.mem_append_left _ h
  · intro i j hi
    rw [get_connection, get_connection, decide_eq_true_eq, decide_eq_true_eq,
      List.mem_append]
    apply or_congr Iff.rfl
    rw [mem_flatMap_at _ (grid_eight_at_fst (s * s) s),
      grid_eight_at_mem s i j hs hb hi]
    constructor
    · rintro ⟨-, hquad⟩
      exact (quad_iff_coord s i j hs hb hi).mp hquad
    · intro hcoord
      exact ⟨hi, (quad_iff_coord s i j hs hb hi).mpr hcoord⟩
  · refine ⟨0, s + 1, ?_, ?_⟩
    · rw [get_connection, decide_eq_true_eq]
      apply List.mem_append_right
      have h4 : 2 * 2 ≤ s * s := Nat.mul_le_mul hs hs
      rw [mem_flatMap_at _ (grid_eight_at_fst (s * s) s)]
      refine ⟨by omega, ?_⟩
      rw [grid_eight_at_mem s 0 (s + 1) hs hb (by omega)]
      refine Or.inr (Or.inr (Or.inr ⟨?_, ?_, by omega⟩))
      · rw [Nat.zero_div]
        omega
      · rw [Nat.zero_mod]
        omega
    · rw [get_connection, decide_eq_false_iff_not]
      intro hmem
      rw [mem_flatMap_at _ (grid_four_at_fst (s * s) s)] at hmem
      obtain ⟨-, hm⟩ := hmem
      unfold grid_four_connections_at at hm
      simp only [List.mem_append, mem_ite_pair, Prod.mk.injEq] at hm
      have hs65 : s ≤ 65535 := side_le_65535 s hb
      rcases hm with ((⟨-, -, h⟩ | ⟨-, -, h⟩) | ⟨-, -, h⟩) | ⟨-, -, h⟩
      · unfold usub32 at h
        unfold U32 at h
        omega
      · unfold U32 at h
        omega
      · unfold usub32 at h
        unfold U32 at h
        omega
      · unfold U32 at h
        omega

/-- Witness for C6 (amended) at `s = 2` (the 2×2 grid): GRID_EIGHT has an
edge GRID_FOUR lacks. -/
theorem C6_witness :
    ∃ ce cf, create_structure 4 conn_type.GRID_EIGHT = Except.ok ce ∧
      create_structure 4 conn_type.GRID_FOUR = Except.ok cf ∧
      ∃ i j, get_connection ce i j = true ∧ get_connection cf i j = false := by
  have h4 : Nat.sqrt 4 = 2 := Nat.sqrt_eq 2
  have hcf : create_structure 4 conn_type.GRID_FOUR =
      Except.ok ((List.range 4).flatMap (grid_four_connections_at 4 2)) := by
    simp only [create_structure]
    unfold create_grid_four_connections
    rw [h4, if_pos (by norm_num)]
  have hce : create_structure 4 conn_type.GRID_EIGHT =
      Except.ok ((List.range 4).flatMap (grid_four_connections_at 4 2) ++
        (List.range 4).flatMap (grid_eight_connections_at 4 2)) := by
    simp only [create_structure]
    unfold create_grid_eight_connections create_grid_four_connections
    rw [h4, if_pos (by norm_num)]
  obtain ⟨-, -, h⟩ := C6_grid_eight_extends 2 (by omega) (by unfold U32; omega)
    _ _ hcf hce
  exact ⟨_, _, hce, hcf, h⟩
